import Mathlib

set_option autoImplicit false

namespace ZodMongo

/-!
Shallow embedding of the zod-mongo repository layer.

Documents are JavaScript objects, modelled as association lists in which a
later binding overrides an earlier one; this makes the object spread
`\x7b...doc, k: v\x7d` a plain list append, exactly as in the source.  Reading a
field therefore returns the last binding of the key.  Instants (`Date`
values) are modelled as natural numbers of milliseconds.  The static
`TimestampManager.lastTimestamp` field and the storage content are threaded
as explicit state, and every repository operation additionally returns the
list of storage-engine calls it issued, so that "no write was issued" is a
provable statement.
-/

/-- Field values of a document: integers, strings, booleans, instants
(`Date`, in ms) and object identifiers. -/
inductive Val where
  | vInt : Int → Val
  | vStr : String → Val
  | vBool : Bool → Val
  | vDate : Nat → Val
  | vId : Nat → Val
deriving DecidableEq, Repr

/-- A JavaScript object: an association list where a later binding
overrides an earlier one (spread semantics). -/
abbrev Doc := List (String × Val)

/-- Reading a field returns the value of the last binding of the key,
matching JavaScript property lookup on an object built by spreads. -/
def getField (d : Doc) (k : String) : Option Val :=
  (d.reverse.find? (fun p => p.1 == k)).map (fun p => p.2)

/-- The `k in obj` test of JavaScript. -/
def hasField (d : Doc) (k : String) : Bool :=
  (getField d k).isSome

/-- A MongoDB update document: operator name (such as `$set`, `$inc`)
mapped to its clause object. -/
abbrev UpdateDoc := List (String × Doc)

/-- Reading an operator clause from an update document. -/
def getOp (u : UpdateDoc) (op : String) : Option Doc :=
  (u.reverse.find? (fun p => p.1 == op)).map (fun p => p.2)

/-- JavaScript property assignment `update[op] = clause`: replaces the
binding in place when present, preserving all other operator keys. -/
def setOp (u : UpdateDoc) (op : String) (clause : Doc) : UpdateDoc :=
  u.map (fun p => if p.1 == op then (p.1, clause) else p)

/-- `TimestampManager.getNewTimestamp`: from the remembered
`lastTimestamp` and the wall clock `now`, issues
`max now (lastTimestamp + 1)` and remembers it.  First component is the
returned instant, second the new `lastTimestamp`. -/
def getNewTimestamp (lastTimestamp now : Nat) : Nat × Nat :=
  let newTimestamp := max now (lastTimestamp + 1)
  (newTimestamp, newTimestamp)

/-- `TimestampManager.addTimestamps`: spreads `createdAt` and `updatedAt`
(with one freshly issued instant) onto the document. -/
def addTimestamps (lastTimestamp now : Nat) (doc : Doc) : Doc × Nat :=
  let r := getNewTimestamp lastTimestamp now
  (doc ++ [("createdAt", Val.vDate r.1), ("updatedAt", Val.vDate r.1)], r.2)

/-- `TimestampManager.updateTimestamp`: spreads a freshly issued
`updatedAt` onto an update clause, overriding any caller value. -/
def updateTimestamp (lastTimestamp now : Nat) (update : Doc) : Doc × Nat :=
  let r := getNewTimestamp lastTimestamp now
  (update ++ [("updatedAt", Val.vDate r.1)], r.2)

/-- Outputs of a sequence of `getNewTimestamp` calls, one per wall-clock
reading in the list, threading the remembered `lastTimestamp`. -/
def runGenerator (lastTimestamp : Nat) : List Nat → List Nat
  | [] => []
  | now :: rest =>
      let r := getNewTimestamp lastTimestamp now
      r.1 :: runGenerator r.2 rest

/-- A zod object schema: a list of declared fields, each with a validating
predicate.  `z.object` semantics: parsing succeeds when every declared
field is present and valid, and the parsed value is stripped to the
declared fields (unknown keys removed). -/
structure ZodObjectSchema where
  fields : List (String × (Val → Bool))

/-- `schema.parse`: returns the validated, stripped document, or `none`
for a validation failure (a thrown `ZodError`). -/
def parseDoc (s : ZodObjectSchema) (d : Doc) : Option Doc :=
  if s.fields.all (fun f =>
      match getField d f.1 with
      | some v => f.2 v
      | none => false)
  then some (s.fields.filterMap (fun f => (getField d f.1).map (fun v => (f.1, v))))
  else none

/-- Repository construction input that the claims depend on:
`timestamps` defaults to `true` in the constructor. -/
structure Repo where
  schema : ZodObjectSchema
  timestamps : Bool

/-- The error taxonomy of the repository layer. -/
inductive RepoError where
  | validation
  | documentNotFound (filter : Doc)
  | databaseNotConnected
deriving DecidableEq, Repr

/-- Calls issued to the storage engine, recorded so that absence of
storage traffic is provable. -/
inductive StorageOp where
  | insertOneOp (doc : Doc)
  | insertManyOp (docs : List Doc)
  | updateOneOp (filter : Doc) (update : UpdateDoc)
  | updateManyOp (filter : Doc) (update : UpdateDoc)
  | findOneAndUpdateOp (filter : Doc) (update : UpdateDoc)
deriving DecidableEq, Repr

/-- Storage content plus the static `TimestampManager.lastTimestamp`. -/
structure SysState where
  store : List Doc
  lastTimestamp : Nat
deriving DecidableEq, Repr

/-- Equality filter matching: every filter field must be present in the
document with the same value. -/
def matchesFilter (filter : Doc) (d : Doc) : Bool :=
  filter.all (fun p => getField d p.1 == some p.2)

/-- The `$set` operator of the storage engine: each clause field is
written over the document. -/
def applySet (d : Doc) (clause : Doc) : Doc :=
  d ++ clause

/-- The `$unset` operator: removes every field named in the clause. -/
def applyUnset (d : Doc) (clause : Doc) : Doc :=
  d.filter (fun p => !(hasField clause p.1))

/-- One `$inc` entry: adds to the numeric field, creating it if absent. -/
def incField (d : Doc) (k : String) (v : Val) : Doc :=
  match getField d k, v with
  | some (Val.vInt a), Val.vInt b => d ++ [(k, Val.vInt (a + b))]
  | none, Val.vInt b => d ++ [(k, Val.vInt b)]
  | _, _ => d

/-- The `$inc` operator over a clause. -/
def applyInc (d : Doc) (clause : Doc) : Doc :=
  clause.foldl (fun acc kv => incField acc kv.1 kv.2) d

/-- Application of one update operator to a stored document (the
operators the claims mention; an unmodelled operator leaves the document
unchanged). -/
def applyOp (d : Doc) (op : String) (clause : Doc) : Doc :=
  if op == "$set" then applySet d clause
  else if op == "$unset" then applyUnset d clause
  else if op == "$inc" then applyInc d clause
  else d

/-- Application of a whole update document to a stored document. -/
def applyUpdate (d : Doc) (u : UpdateDoc) : Doc :=
  u.foldl (fun acc p => applyOp acc p.1 p.2) d

/-- The storage engine updating the first matching document (`updateOne`,
`findOneAndUpdate`). -/
def updateFirst (store : List Doc) (filter : Doc) (u : UpdateDoc) : List Doc :=
  match store with
  | [] => []
  | d :: rest =>
      if matchesFilter filter d then applyUpdate d u :: rest
      else d :: updateFirst rest filter u

/-- The storage engine updating every matching document (`updateMany`). -/
def updateAll (store : List Doc) (filter : Doc) (u : UpdateDoc) : List Doc :=
  store.map (fun d => if matchesFilter filter d then applyUpdate d u else d)

/-- The timestamp branch shared by `updateOne`, `updateMany` and
`findOneAndUpdate`: with timestamps enabled, either injects a fresh
`updatedAt` into the existing `$set` clause, or replaces the whole update
by `\x7b $set: \x7b updatedAt \x7d \x7d` when no `$set` clause exists. -/
def normalizeUpdate (timestamps : Bool) (lastTimestamp now : Nat) (update : UpdateDoc) :
    UpdateDoc × Nat :=
  if timestamps then
    match getOp update "$set" with
    | some setClause =>
        let r := updateTimestamp lastTimestamp now setClause
        (setOp update "$set" r.1, r.2)
    | none =>
        let r := updateTimestamp lastTimestamp now []
        ([("$set", r.1)], r.2)
  else (update, lastTimestamp)

/-- `ZodMongoRepository.insertOne`: validates `\x7b _id: fresh, ...input \x7d`,
stamps timestamps when enabled, writes the document and returns it. -/
def insertOne (repo : Repo) (freshId : Val) (now : Nat) (input : Doc) (st : SysState) :
    Except RepoError Doc × SysState × List StorageOp :=
  match parseDoc repo.schema ([("_id", freshId)] ++ input) with
  | none => (Except.error RepoError.validation, st, [])
  | some validated =>
      let r := if repo.timestamps then addTimestamps st.lastTimestamp now validated
               else (validated, st.lastTimestamp)
      (Except.ok r.1, ⟨st.store ++ [r.1], r.2⟩, [StorageOp.insertOneOp r.1])

/-- Sequential validation of a batch starting at index `i`; stops at the
first failure, exactly as `input.map(parse)` throws at the first bad item. -/
def parseAllFrom (s : ZodObjectSchema) (freshIds : Nat → Val) (i : Nat) :
    List Doc → Option (List Doc)
  | [] => some []
  | input :: rest =>
      match parseDoc s ([("_id", freshIds i)] ++ input) with
      | none => none
      | some v => (parseAllFrom s freshIds (i + 1) rest).map (fun vs => v :: vs)

/-- Sequential stamping of a validated batch: each document receives its
own freshly issued instant pair, threading the generator state. -/
def stampAllFrom (nows : Nat → Nat) (i : Nat) (lastTimestamp : Nat) :
    List Doc → List Doc × Nat
  | [] => ([], lastTimestamp)
  | d :: rest =>
      let r := addTimestamps lastTimestamp (nows i) d
      let rr := stampAllFrom nows (i + 1) r.2 rest
      (r.1 :: rr.1, rr.2)

/-- `ZodMongoRepository.insertMany`: validates every item before any
storage call, then stamps and writes the batch. -/
def insertMany (repo : Repo) (freshIds : Nat → Val) (nows : Nat → Nat)
    (inputs : List Doc) (st : SysState) :
    Except RepoError (List Doc) × SysState × List StorageOp :=
  match parseAllFrom repo.schema freshIds 0 inputs with
  | none => (Except.error RepoError.validation, st, [])
  | some validated =>
      let r := if repo.timestamps then stampAllFrom nows 0 st.lastTimestamp validated
               else (validated, st.lastTimestamp)
      (Except.ok r.1, ⟨st.store ++ r.1, r.2⟩, [StorageOp.insertManyOp r.1])

/-- `ZodMongoRepository.findOne`: the first stored document matching the
filter, or `null`. -/
def findOne (st : SysState) (filter : Doc) : Option Doc :=
  st.store.find? (matchesFilter filter)

/-- `ZodMongoRepository.findOneStrict`: converts a `null` result of
`findOne` into a `documentNotFound` failure carrying the filter. -/
def findOneStrict (st : SysState) (filter : Doc) : Except RepoError Doc :=
  match findOne st filter with
  | some d => Except.ok d
  | none => Except.error (RepoError.documentNotFound filter)

/-- `ZodMongoRepository.updateOne`: normalizes the update (timestamp
injection) and asks storage to update the first matching document. -/
def updateOne (repo : Repo) (now : Nat) (filter : Doc) (update : UpdateDoc)
    (st : SysState) : SysState × List StorageOp :=
  let r := normalizeUpdate repo.timestamps st.lastTimestamp now update
  (⟨updateFirst st.store filter r.1, r.2⟩, [StorageOp.updateOneOp filter r.1])

/-- `ZodMongoRepository.updateMany`: same normalization, applied to every
matching document. -/
def updateMany (repo : Repo) (now : Nat) (filter : Doc) (update : UpdateDoc)
    (st : SysState) : SysState × List StorageOp :=
  let r := normalizeUpdate repo.timestamps st.lastTimestamp now update
  (⟨updateAll st.store filter r.1, r.2⟩, [StorageOp.updateManyOp filter r.1])

/-- `ZodMongoRepository.findOneAndUpdate` with `returnDocument: "after"`:
normalizes the update, updates the first matching document, returns its
post-update value, and converts a missing match into `documentNotFound`. -/
def findOneAndUpdate (repo : Repo) (now : Nat) (filter : Doc) (update : UpdateDoc)
    (st : SysState) : Except RepoError Doc × SysState × List StorageOp :=
  let r := normalizeUpdate repo.timestamps st.lastTimestamp now update
  match findOne st filter with
  | some d =>
      (Except.ok (applyUpdate d r.1), ⟨updateFirst st.store filter r.1, r.2⟩,
        [StorageOp.findOneAndUpdateOp filter r.1])
  | none =>
      (Except.error (RepoError.documentNotFound filter), ⟨st.store, r.2⟩,
        [StorageOp.findOneAndUpdateOp filter r.1])

instance {α β : Type} [DecidableEq α] [DecidableEq β] :
    DecidableEq (Except α β) := fun a b =>
  match a, b with
  | Except.ok x, Except.ok y =>
      if h : x = y then isTrue (by rw [h])
      else isFalse (fun hc => h (Except.ok.inj hc))
  | Except.error x, Except.error y =>
      if h : x = y then isTrue (by rw [h])
      else isFalse (fun hc => h (Except.error.inj hc))
  | Except.ok _, Except.error _ => isFalse (fun hc => Except.noConfusion hc)
  | Except.error _, Except.ok _ => isFalse (fun hc => Except.noConfusion hc)

/-- Bound check for an optional timestamp value: a `Date`-valued field
must be at most `n`; a missing or non-`Date` value imposes nothing. -/
def tsLe (v : Option Val) (n : Nat) : Bool :=
  match v with
  | some (Val.vDate ts) => decide (ts ≤ n)
  | _ => true

/-- Generator invariant of a system state: every stored `updatedAt`
instant is at most the remembered `lastTimestamp`, because each one was
issued by the generator. -/
def tsInvariant (st : SysState) : Prop :=
  ∀ d ∈ st.store, tsLe (getField d "updatedAt") st.lastTimestamp = true

/-!
Connection manager (`ZodMongoDatabaseConnection`).  The `connection`
record and the `connectionPromise` marker are modelled as explicit
state; `Db` and `MongoClient` handles are opaque naturals.
-/

/-- The mutable state of the connection singleton: the `connection`
record fields, the in-flight `connectionPromise` marker, and the retry
configuration. -/
structure ConnState where
  db : Option Nat
  client : Option Nat
  isConnected : Bool
  connectionPromise : Bool
  maxRetries : Nat
  retryDelay : Nat
deriving DecidableEq, Repr

/-- The state at process start: everything null, defaults
`maxRetries = 5`, `retryDelay = 1000`. -/
def initialConnState : ConnState :=
  { db := none, client := none, isConnected := false,
    connectionPromise := false, maxRetries := 5, retryDelay := 1000 }

/-- Lifecycle events emitted by the manager. -/
inductive ConnEvent where
  | connected
  | disconnected
  | errorEvent
deriving DecidableEq, Repr

/-- The timeout bound used by the wait inside `retryGetDb`. -/
def timeoutBound (s : ConnState) : Nat :=
  s.maxRetries * s.retryDelay

/-- `setup(options)`: first overwrites `maxRetries` and `retryDelay`
(keeping the old value when the option is omitted), then coalesces onto
an existing `connectionPromise` when one is present; otherwise records a
fresh one.  The boolean reports whether the call coalesced onto the
already existing attempt. -/
def setup (s : ConnState) (optMaxRetries optRetryDelay : Option Nat) :
    ConnState × Bool :=
  let s1 := { s with maxRetries := optMaxRetries.getD s.maxRetries,
                     retryDelay := optRetryDelay.getD s.retryDelay }
  if s1.connectionPromise then (s1, true)
  else ({ s1 with connectionPromise := true }, false)

/-- The successful tail of `establishConnection`: records the client and
database handles, sets `isConnected`, and emits `connected` — in that
order, so the `connected` event never fires with a null `db`. -/
def establishSuccess (s : ConnState) (client db : Nat) : ConnState × List ConnEvent :=
  ({ s with client := some client, db := some db, isConnected := true },
    [ConnEvent.connected])

/-- The transport `close` listener registered by `establishConnection`:
only flips `isConnected` off and emits `disconnected`. -/
def transportClose (s : ConnState) : ConnState × List ConnEvent :=
  ({ s with isConnected := false }, [ConnEvent.disconnected])

/-- `disconnect()`: guarded on a recorded client.  When one exists it
closes the transport (the boolean), clears every connection field and the
`connectionPromise` marker, and emits `disconnected`; with no client the
call does nothing at all. -/
def disconnect (s : ConnState) : ConnState × Bool × List ConnEvent :=
  match s.client with
  | some _ =>
      ({ s with client := none, db := none, isConnected := false,
                connectionPromise := false },
        true, [ConnEvent.disconnected])
  | none => (s, false, [])

/-- Possible completions of an `ensureDb()` call: an immediate resolution
with the session handle, a resolution at the instant the `connected`
event fired, or a rejection with `ZodDatabaseNotConnectedError` at the
given instant. -/
inductive EnsureOutcome where
  | immediate (db : Nat)
  | resolvedAt (t : Nat) (db : Nat)
  | notConnectedAt (t : Nat)
deriving DecidableEq, Repr

/-- `ensureDb()` with its event-driven wait.  The environment
`connectedSignal` gives the instant at which the next `connected` event
fires, if ever, together with the `db` handle that `establishSuccess`
recorded just before emitting it.  With a session handle present the
call returns it at once, even when `isConnected` is false.  Otherwise
`retryGetDb` suspends on one `connected` listener racing one timer of
`maxRetries * retryDelay` ms: the event strictly before the timer
resolves, anything else rejects when the timer fires. -/
def ensureDb (s : ConnState) (connectedSignal : Option (Nat × Nat)) : EnsureOutcome :=
  match s.db with
  | some db => EnsureOutcome.immediate db
  | none =>
      if s.isConnected then
        EnsureOutcome.notConnectedAt 0
      else
        match connectedSignal with
        | some (t, db) =>
            if t < timeoutBound s then EnsureOutcome.resolvedAt t db
            else EnsureOutcome.notConnectedAt (timeoutBound s)
        | none => EnsureOutcome.notConnectedAt (timeoutBound s)

/-! Helper lemmas on field lookup. -/

theorem getField_append (a b : Doc) (k : String) :
    getField (a ++ b) k = (getField b k).or (getField a k) := by
  unfold getField
  rw [List.reverse_append, List.find?_append]
  cases h : b.reverse.find? (fun p => p.1 == k) <;>
    simp [h, Option.or]

theorem getField_append_of_some (a b : Doc) (k : String) (v : Val)
    (h : getField b k = some v) : getField (a ++ b) k = some v := by
  rw [getField_append, h, Option.or]

theorem getField_append_of_none (a b : Doc) (k : String)
    (h : getField b k = none) : getField (a ++ b) k = getField a k := by
  rw [getField_append, h, Option.or]

theorem getField_singleton (k : String) (v : Val) :
    getField [(k, v)] k = some v := by
  simp [getField]

theorem getField_eq_none_iff (d : Doc) (k : String) :
    getField d k = none ↔ ∀ p ∈ d, p.1 ≠ k := by
  unfold getField
  simp only [Option.map_eq_none', List.find?_eq_none, List.mem_reverse]
  constructor
  · intro h p hp
    have := h p hp
    simpa using this
  · intro h p hp
    simpa using h p hp

theorem hasField_false_iff (d : Doc) (k : String) :
    hasField d k = false ↔ getField d k = none := by
  unfold hasField
  cases getField d k <;> simp

theorem getField_pair (p : String × Val) (k : String) :
    getField [p] k = if p.1 == k then some p.2 else none := by
  simp only [getField, List.reverse_singleton, List.find?]
  split <;> simp_all

theorem getField_cons (p : String × Val) (rest : Doc) (k : String) :
    getField (p :: rest) k = (getField rest k).or (getField [p] k) :=
  getField_append [p] rest k

theorem getField_some_mem (d : Doc) (k : String) (v : Val)
    (h : getField d k = some v) : (k, v) ∈ d := by
  unfold getField at h
  rcases Option.map_eq_some'.mp h with ⟨p, hp, hv⟩
  have hmem := List.mem_reverse.mp (List.mem_of_find?_eq_some hp)
  have hk := List.find?_some hp
  obtain ⟨p1, p2⟩ := p
  simp only [beq_iff_eq] at hk
  subst hk
  subst hv
  exact hmem

theorem getField_filter (d : Doc) (pred : String × Val → Bool) (k : String)
    (h : ∀ v : Val, pred (k, v) = true) :
    getField (d.filter pred) k = getField d k := by
  induction d with
  | nil => rfl
  | cons p rest ih =>
      by_cases hp : pred p = true
      · rw [List.filter_cons_of_pos hp, getField_cons p (rest.filter pred),
          getField_cons p rest, ih]
      · have hk : (p.1 == k) = false := by
          rcases p with ⟨p1, p2⟩
          by_contra hcon
          have : p1 = k := by simpa using hcon
          subst this
          exact hp (h p2)
        rw [List.filter_cons_of_neg (by simpa using hp), ih, getField_cons,
          getField_pair, hk]
        simp

/-! Helper lemmas on the timestamp generator. -/

theorem getNewTimestamp_lt (lastTimestamp now : Nat) :
    lastTimestamp < (getNewTimestamp lastTimestamp now).1 := by
  unfold getNewTimestamp
  exact lt_of_lt_of_le (Nat.lt_succ_self lastTimestamp) (le_max_right _ _)

theorem getNewTimestamp_remembers (lastTimestamp now : Nat) :
    (getNewTimestamp lastTimestamp now).2 = (getNewTimestamp lastTimestamp now).1 := rfl

theorem runGenerator_head_gt (lastTimestamp : Nat) (nows : List Nat) (y : Nat)
    (h : (runGenerator lastTimestamp nows).head? = some y) : lastTimestamp < y := by
  cases nows with
  | nil => simp [runGenerator] at h
  | cons n rest =>
      simp only [runGenerator, List.head?_cons, Option.some_inj] at h
      subst h
      exact getNewTimestamp_lt lastTimestamp n

/-! Helper lemmas on update application. -/

theorem getField_incField (d : Doc) (k1 k : String) (v : Val) (h : k1 ≠ k) :
    getField (incField d k1 v) k = getField d k := by
  have hk : getField ([(k1, v)].map (fun p => (p.1, p.2))) k = none := by
    simp [getField_pair, h]
  unfold incField
  have hnone : ∀ w : Val, getField [(k1, w)] k = none := by
    intro w
    simp [getField_pair, h]
  split
  · exact getField_append_of_none _ _ _ (hnone _)
  · exact getField_append_of_none _ _ _ (hnone _)
  · rfl

theorem getField_applyInc (clause d : Doc) (k : String)
    (h : hasField clause k = false) :
    getField (applyInc d clause) k = getField d k := by
  have hk : ∀ p ∈ clause, p.1 ≠ k :=
    (getField_eq_none_iff clause k).mp ((hasField_false_iff _ _).mp h)
  unfold applyInc
  induction clause generalizing d with
  | nil => rfl
  | cons c rest ih =>
      simp only [List.foldl_cons]
      have hrest : ∀ p ∈ rest, p.1 ≠ k := fun p hp => hk p (List.mem_cons_of_mem c hp)
      rw [ih (incField d c.1 c.2)
        ((hasField_false_iff _ _).mpr ((getField_eq_none_iff _ _).mpr hrest)) hrest]
      exact getField_incField d c.1 k c.2 (hk c (List.mem_cons_self _ _))

theorem getField_applyOp (d : Doc) (op : String) (clause : Doc) (k : String)
    (h : hasField clause k = false) :
    getField (applyOp d op clause) k = getField d k := by
  unfold applyOp applySet applyUnset
  split
  · exact getField_append_of_none _ _ _ ((hasField_false_iff _ _).mp h)
  · split
    · exact getField_filter d _ k (fun v => by simp_all)
    · split
      · exact getField_applyInc clause d k h
      · rfl

theorem getField_applyUpdate_of_no_touch (u : UpdateDoc) (d : Doc) (k : String)
    (h : ∀ p ∈ u, hasField p.2 k = false) :
    getField (applyUpdate d u) k = getField d k := by
  unfold applyUpdate
  induction u generalizing d with
  | nil => rfl
  | cons p rest ih =>
      simp only [List.foldl_cons]
      rw [ih (applyOp d p.1 p.2) (fun q hq => h q (List.mem_cons_of_mem p hq))]
      exact getField_applyOp d p.1 p.2 k (h p (List.mem_cons_self _ _))

theorem getField_applyUpdate_of_set (u : UpdateDoc) (d : Doc) (k : String) (v : Val)
    (hset : ∀ p ∈ u, p.1 = "$set" → getField p.2 k = some v)
    (hexists : ∃ p ∈ u, p.1 = "$set")
    (hothers : ∀ p ∈ u, p.1 ≠ "$set" → hasField p.2 k = false) :
    getField (applyUpdate d u) k = some v := by
  induction u generalizing d with
  | nil => simp at hexists
  | cons p rest ih =>
      by_cases hrest : ∃ q ∈ rest, q.1 = "$set"
      · have step : applyUpdate d (p :: rest) = applyUpdate (applyOp d p.1 p.2) rest := rfl
        rw [step]
        exact ih (applyOp d p.1 p.2)
          (fun q hq hqs => hset q (List.mem_cons_of_mem p hq) hqs) hrest
          (fun q hq hqs => hothers q (List.mem_cons_of_mem p hq) hqs)
      · have hp : p.1 = "$set" := by
          rcases hexists with ⟨q, hq, hqs⟩
          rcases List.mem_cons.mp hq with hq1 | hq2
          · rw [← hq1]; exact hqs
          · exact absurd ⟨q, hq2, hqs⟩ hrest
        have step : applyUpdate d (p :: rest) = applyUpdate (applyOp d p.1 p.2) rest := rfl
        rw [step]
        have hval : getField (applyOp d p.1 p.2) k = some v := by
          have : applyOp d p.1 p.2 = d ++ p.2 := by
            simp [applyOp, applySet, hp]
          rw [this]
          exact getField_append_of_some _ _ _ _ (hset p (List.mem_cons_self _ _) hp)
        rw [getField_applyUpdate_of_no_touch rest _ k
          (fun q hq => hothers q (List.mem_cons_of_mem p hq)
            (fun hqs => hrest ⟨q, hq, hqs⟩))]
        exact hval

/-! Helper lemmas on operator lookup in update documents. -/

theorem getOp_append (a b : UpdateDoc) (op : String) :
    getOp (a ++ b) op = (getOp b op).or (getOp a op) := by
  unfold getOp
  rw [List.reverse_append, List.find?_append]
  cases h : b.reverse.find? (fun p => p.1 == op) <;> simp [h, Option.or]

theorem getOp_pair (p : String × Doc) (op : String) :
    getOp [p] op = if p.1 == op then some p.2 else none := by
  simp only [getOp, List.reverse_singleton, List.find?]
  split <;> simp_all

theorem getOp_cons (p : String × Doc) (rest : UpdateDoc) (op : String) :
    getOp (p :: rest) op = (getOp rest op).or (getOp [p] op) :=
  getOp_append [p] rest op

theorem getOp_eq_none_iff (u : UpdateDoc) (op : String) :
    getOp u op = none ↔ ∀ p ∈ u, p.1 ≠ op := by
  unfold getOp
  simp only [Option.map_eq_none', List.find?_eq_none, List.mem_reverse]
  constructor
  · intro h p hp
    have := h p hp
    simpa using this
  · intro h p hp
    simpa using h p hp

theorem getOp_setOp_none (u : UpdateDoc) (op : String) (c : Doc) (op2 : String)
    (h : getOp u op2 = none) : getOp (setOp u op c) op2 = none := by
  rw [getOp_eq_none_iff] at h ⊢
  intro p hp
  rcases List.mem_map.mp hp with ⟨q, hq, hf⟩
  have hkey : p.1 = q.1 := by
    by_cases hq1 : (q.1 == op) = true <;> simp [hq1] at hf <;> rw [← hf]
  rw [hkey]
  exact h q hq

theorem getOp_setOp_self (u : UpdateDoc) (op : String) (c : Doc)
    (h : getOp u op ≠ none) : getOp (setOp u op c) op = some c := by
  induction u with
  | nil => simp [getOp] at h
  | cons p rest ih =>
      have hstep : setOp (p :: rest) op c =
          (if p.1 == op then (p.1, c) else p) :: setOp rest op c := by
        simp [setOp]
      rw [hstep, getOp_cons]
      rw [getOp_cons] at h
      by_cases hr : getOp rest op = none
      · rw [getOp_setOp_none rest op c op hr, Option.or]
        rw [hr, Option.or] at h
        have hp : (p.1 == op) = true := by
          by_contra hcon
          exact h (by rw [getOp_pair]; simp [hcon])
        rw [getOp_pair]
        simp [hp]
      · rw [ih hr, Option.or]


theorem getOp_setOp_other (u : UpdateDoc) (op : String) (c : Doc) (op2 : String)
    (h : op2 ≠ op) : getOp (setOp u op c) op2 = getOp u op2 := by
  induction u with
  | nil => rfl
  | cons p rest ih =>
      have hstep : setOp (p :: rest) op c =
          (if p.1 == op then (p.1, c) else p) :: setOp rest op c := by
        simp [setOp]
      rw [hstep, getOp_cons, getOp_cons p rest, ih]
      have hhead : getOp [if p.1 == op then (p.1, c) else p] op2 = getOp [p] op2 := by
        by_cases hp : (p.1 == op) = true
        · have hp2 : (p.1 == op2) = false := by
            have : p.1 = op := by simpa using hp
            subst this
            simpa using fun hcon => h hcon.symm
          simp [getOp_pair, hp, hp2]
        · simp [hp]
      rw [hhead]

/-! Characterization of the repository update normalization. -/

theorem normalizeUpdate_hasSet (lastTimestamp now : Nat) (u : UpdateDoc) (c : Doc)
    (h : getOp u "$set" = some c) :
    normalizeUpdate true lastTimestamp now u =
      (setOp u "$set" (c ++ [("updatedAt", Val.vDate (max now (lastTimestamp + 1)))]),
        max now (lastTimestamp + 1)) := by
  unfold normalizeUpdate
  rw [h]
  rfl

theorem normalizeUpdate_noSet (lastTimestamp now : Nat) (u : UpdateDoc)
    (h : getOp u "$set" = none) :
    normalizeUpdate true lastTimestamp now u =
      ([("$set", [("updatedAt", Val.vDate (max now (lastTimestamp + 1)))])],
        max now (lastTimestamp + 1)) := by
  unfold normalizeUpdate
  rw [h]
  rfl

theorem normalizeUpdate_off (lastTimestamp now : Nat) (u : UpdateDoc) :
    normalizeUpdate false lastTimestamp now u = (u, lastTimestamp) := rfl

/-! Helper lemmas on schema parsing. -/

theorem parseDoc_get_some (s : ZodObjectSchema) (d out : Doc) (k : String) (v : Val)
    (h : parseDoc s d = some out) (hk : getField out k = some v) :
    getField d k = some v := by
  unfold parseDoc at h
  split at h
  · have hout : out = s.fields.filterMap
        (fun f => (getField d f.1).map (fun v => (f.1, v))) := by
      injection h with h2
      exact h2.symm
    subst hout
    have hmem := getField_some_mem _ _ _ hk
    rcases List.mem_filterMap.mp hmem with ⟨f, _, hmap⟩
    rcases Option.map_eq_some'.mp hmap with ⟨w, hw, hpair⟩
    have hk1 : f.1 = k := congrArg Prod.fst hpair
    have hv1 : w = v := congrArg Prod.snd hpair
    rw [← hk1, hw, hv1]
  · exact absurd h (by simp)

theorem parseAllFrom_eq_none_of_fail (s : ZodObjectSchema) (freshIds : Nat → Val)
    (inputs : List Doc) (i j : Nat) (hj : j < inputs.length)
    (h : parseDoc s ([("_id", freshIds (i + j))] ++ inputs.get ⟨j, hj⟩) = none) :
    parseAllFrom s freshIds i inputs = none := by
  induction inputs generalizing i j with
  | nil => simp at hj
  | cons input rest ih =>
      cases j with
      | zero =>
          unfold parseAllFrom
          simp only [Nat.add_zero] at h
          rw [show (input :: rest).get ⟨0, hj⟩ = input from rfl] at h
          rw [h]
      | succ j0 =>
          unfold parseAllFrom
          cases hp : parseDoc s ([("_id", freshIds i)] ++ input) with
          | none => rfl
          | some v =>
              have hj0 : j0 < rest.length := Nat.lt_of_succ_lt_succ hj
              have hidx : (input :: rest).get ⟨j0 + 1, hj⟩ = rest.get ⟨j0, hj0⟩ := rfl
              have harith : i + (j0 + 1) = (i + 1) + j0 := by omega
              rw [hidx, harith] at h
              rw [ih (i + 1) j0 hj0 h]
              rfl

/-! Helper lemmas on timestamp stamping. -/

theorem getField_addTimestamps_createdAt (lastTimestamp now : Nat) (doc : Doc) :
    getField (addTimestamps lastTimestamp now doc).1 "createdAt" =
      some (Val.vDate (max now (lastTimestamp + 1))) := by
  unfold addTimestamps getNewTimestamp
  exact getField_append_of_some _ _ _ _ (by simp [getField, List.find?])

theorem getField_addTimestamps_updatedAt (lastTimestamp now : Nat) (doc : Doc) :
    getField (addTimestamps lastTimestamp now doc).1 "updatedAt" =
      some (Val.vDate (max now (lastTimestamp + 1))) := by
  unfold addTimestamps getNewTimestamp
  exact getField_append_of_some _ _ _ _ (by simp [getField, List.find?])

theorem stampAllFrom_equalPair (nows : Nat → Nat) (docs : List Doc) (i lastTimestamp : Nat) :
    ∀ d ∈ (stampAllFrom nows i lastTimestamp docs).1,
      ∃ t, getField d "createdAt" = some (Val.vDate t) ∧
        getField d "updatedAt" = some (Val.vDate t) := by
  induction docs generalizing i lastTimestamp with
  | nil => intro d hd; simp [stampAllFrom] at hd
  | cons doc rest ih =>
      intro d hd
      unfold stampAllFrom at hd
      rcases List.mem_cons.mp hd with hd1 | hd2
      · subst hd1
        exact ⟨max (nows i) (lastTimestamp + 1),
          getField_addTimestamps_createdAt _ _ _,
          getField_addTimestamps_updatedAt _ _ _⟩
      · exact ih (i + 1) _ d hd2

theorem getOp_some_mem (u : UpdateDoc) (op : String) (c : Doc)
    (h : getOp u op = some c) : (op, c) ∈ u := by
  unfold getOp at h
  rcases Option.map_eq_some'.mp h with ⟨p, hp, hv⟩
  have hmem := List.mem_reverse.mp (List.mem_of_find?_eq_some hp)
  have hk := List.find?_some hp
  obtain ⟨p1, p2⟩ := p
  simp only [beq_iff_eq] at hk
  subst hk
  subst hv
  exact hmem

theorem parseAllFrom_mem (s : ZodObjectSchema) (freshIds : Nat → Val)
    (inputs : List Doc) (i : Nat) (vs : List Doc)
    (h : parseAllFrom s freshIds i inputs = some vs) :
    ∀ v ∈ vs, ∃ input ∈ inputs, ∃ j,
      parseDoc s ([("_id", freshIds j)] ++ input) = some v := by
  induction inputs generalizing i vs with
  | nil =>
      unfold parseAllFrom at h
      injection h with h2
      subst h2
      intro v hv
      simp at hv
  | cons input rest ih =>
      unfold parseAllFrom at h
      cases hp : parseDoc s ([("_id", freshIds i)] ++ input) with
      | none => rw [hp] at h; exact absurd h (by simp)
      | some v0 =>
          rw [hp] at h
          cases hr : parseAllFrom s freshIds (i + 1) rest with
          | none => rw [hr] at h; exact absurd h (by simp)
          | some vs0 =>
              rw [hr] at h
              have hvs : vs = v0 :: vs0 := by
                injection h with h2
                exact h2.symm
              subst hvs
              intro v hv
              rcases List.mem_cons.mp hv with hv1 | hv2
              · subst hv1
                exact ⟨input, List.mem_cons_self _ _, i, hp⟩
              · rcases ih (i + 1) vs0 hr v hv2 with ⟨inp, hinp, j, hj⟩
                exact ⟨inp, List.mem_cons_of_mem _ hinp, j, hj⟩

/-! Claim theorems. -/

/-- C1 as frozen is refuted at this input: with timestamps enabled and a
caller update consisting only of `$inc`, the update sent to storage by
`updateOne` is exactly one fresh `$set / updatedAt` clause and the `$inc`
operator is not preserved. -/
theorem claim_C1_counterexample :
    (updateOne ⟨⟨[]⟩, true⟩ 0 [] [("$inc", [("age", Val.vInt 1)])] ⟨[], 0⟩).2 =
      [StorageOp.updateOneOp [] [("$set", [("updatedAt", Val.vDate 1)])]] ∧
    getOp [("$set", [("updatedAt", Val.vDate 1)])] "$inc" = none ∧
    getOp [("$inc", [("age", Val.vInt 1)])] "$inc" = some [("age", Val.vInt 1)] := by
  decide

/-- C1 amended: with timestamps enabled, each of `updateOne`,
`updateMany` and `findOneAndUpdate` sends one update `u2` to storage,
built with a fresh monotonic instant `t`: when the caller update has a
`$set` clause, `u2` is the caller update with `updatedAt := t` forced
into that clause (overriding any caller value) and every other operator
preserved; when it has no `$set` clause, `u2` is exactly
`\x7b $set: \x7b updatedAt: t \x7d \x7d` and every other caller operator is
discarded. -/
theorem claim_C1_update_injection (repo : Repo) (hts : repo.timestamps = true)
    (now : Nat) (filter : Doc) (u : UpdateDoc) (st : SysState) :
    ∃ u2 t,
      (updateOne repo now filter u st).2 = [StorageOp.updateOneOp filter u2] ∧
      (updateMany repo now filter u st).2 = [StorageOp.updateManyOp filter u2] ∧
      (findOneAndUpdate repo now filter u st).2.2 =
        [StorageOp.findOneAndUpdateOp filter u2] ∧
      st.lastTimestamp < t ∧
      getField ((getOp u2 "$set").getD []) "updatedAt" = some (Val.vDate t) ∧
      (∀ c, getOp u "$set" = some c →
        getOp u2 "$set" = some (c ++ [("updatedAt", Val.vDate t)]) ∧
        ∀ op, op ≠ "$set" → getOp u2 op = getOp u op) ∧
      (getOp u "$set" = none → u2 = [("$set", [("updatedAt", Val.vDate t)])]) := by
  refine ⟨(normalizeUpdate true st.lastTimestamp now u).1,
    max now (st.lastTimestamp + 1), ?_, ?_, ?_, ?_, ?_, ?_, ?_⟩
  · unfold updateOne
    rw [hts]
  · unfold updateMany
    rw [hts]
  · unfold findOneAndUpdate
    rw [hts]
    cases findOne st filter <;> rfl
  · exact lt_of_lt_of_le (Nat.lt_succ_self _) (le_max_right _ _)
  · cases hset : getOp u "$set" with
    | some c =>
        rw [normalizeUpdate_hasSet _ _ _ _ hset]
        rw [getOp_setOp_self u "$set" _ (by rw [hset]; exact fun hcon => by cases hcon)]
        simp only [Option.getD_some]
        exact getField_append_of_some _ _ _ _ (getField_singleton _ _)
    | none =>
        rw [normalizeUpdate_noSet _ _ _ hset]
        have : getOp [("$set", [("updatedAt",
            Val.vDate (max now (st.lastTimestamp + 1)))])] "$set" =
            some [("updatedAt", Val.vDate (max now (st.lastTimestamp + 1)))] := by
          rw [getOp_pair]
          simp
        rw [this]
        simp only [Option.getD_some]
        exact getField_singleton _ _
  · intro c hset
    rw [normalizeUpdate_hasSet _ _ _ _ hset]
    constructor
    · exact getOp_setOp_self u "$set" _ (by rw [hset]; exact fun hcon => by cases hcon)
    · intro op hop
      exact getOp_setOp_other u "$set" _ op hop
  · intro hset
    rw [normalizeUpdate_noSet _ _ _ hset]

/-- Witness for C1 amended, at a caller update carrying both a `$set`
clause (with a forged `updatedAt`) and an `$inc` clause. -/
theorem claim_C1_update_injection_witness :
    ∃ u2 t,
      (updateOne ⟨⟨[]⟩, true⟩ 0 []
          [("$set", [("updatedAt", Val.vDate 999)]), ("$inc", [("n", Val.vInt 2)])]
          ⟨[], 5⟩).2 = [StorageOp.updateOneOp [] u2] ∧
      (updateMany ⟨⟨[]⟩, true⟩ 0 []
          [("$set", [("updatedAt", Val.vDate 999)]), ("$inc", [("n", Val.vInt 2)])]
          ⟨[], 5⟩).2 = [StorageOp.updateManyOp [] u2] ∧
      (findOneAndUpdate ⟨⟨[]⟩, true⟩ 0 []
          [("$set", [("updatedAt", Val.vDate 999)]), ("$inc", [("n", Val.vInt 2)])]
          ⟨[], 5⟩).2.2 = [StorageOp.findOneAndUpdateOp [] u2] ∧
      (5 : Nat) < t ∧
      getField ((getOp u2 "$set").getD []) "updatedAt" = some (Val.vDate t) ∧
      (∀ c, getOp [("$set", [("updatedAt", Val.vDate 999)]),
          ("$inc", [("n", Val.vInt 2)])] "$set" = some c →
        getOp u2 "$set" = some (c ++ [("updatedAt", Val.vDate t)]) ∧
        ∀ op, op ≠ "$set" → getOp u2 op =
          getOp [("$set", [("updatedAt", Val.vDate 999)]),
            ("$inc", [("n", Val.vInt 2)])] op) ∧
      (getOp [("$set", [("updatedAt", Val.vDate 999)]),
          ("$inc", [("n", Val.vInt 2)])] "$set" = none →
        u2 = [("$set", [("updatedAt", Val.vDate t)])]) :=
  claim_C1_update_injection ⟨⟨[]⟩, true⟩ rfl 0 []
    [("$set", [("updatedAt", Val.vDate 999)]), ("$inc", [("n", Val.vInt 2)])] ⟨[], 5⟩

/-- C3: for every sequence of calls to the timestamp generator, each
returned instant is strictly later than the remembered previous one; the
generator remembers the instant it issues; when the wall clock has not
advanced past the remembered instant, the new instant is clamped to
exactly one millisecond after it; and the outputs of any run are strictly
increasing. -/
theorem claim_C3_generator_monotonic (lastTimestamp now : Nat) (nows : List Nat) :
    lastTimestamp < (getNewTimestamp lastTimestamp now).1 ∧
    (getNewTimestamp lastTimestamp now).2 = (getNewTimestamp lastTimestamp now).1 ∧
    (now ≤ lastTimestamp → (getNewTimestamp lastTimestamp now).1 = lastTimestamp + 1) ∧
    List.Chain' (fun a b => a < b) (runGenerator lastTimestamp nows) := by
  refine ⟨getNewTimestamp_lt _ _, rfl, ?_, ?_⟩
  · intro h
    unfold getNewTimestamp
    exact max_eq_right (Nat.le_succ_of_le h)
  · induction nows generalizing lastTimestamp with
    | nil => simp [runGenerator]
    | cons n rest ih =>
        refine List.chain'_cons'.mpr ⟨?_, ih _⟩
        intro y hy
        exact runGenerator_head_gt _ _ _ hy

/-- Witness for C3 at concrete inputs: a frozen clock (readings `3, 3, 3`
with remembered instant `7`) still yields one-tick increments. -/
theorem claim_C3_generator_monotonic_witness :
    (3 ≤ 7 ∧ (getNewTimestamp 7 3).1 = 7 + 1) ∧
      List.Chain' (fun a b => a < b) (runGenerator 7 [3, 3, 3]) :=
  ⟨⟨by decide, (claim_C3_generator_monotonic 7 3 []).2.2.1 (by decide)⟩,
    (claim_C3_generator_monotonic 7 3 [3, 3, 3]).2.2.2⟩

/-- C5: a filter matching no stored document makes `findOneStrict` reject
with a `documentNotFound` error carrying exactly the input filter while
`findOne` resolves to `null`; a filter with at least one match makes
`findOneStrict` resolve with the found document. -/
theorem claim_C5_findOneStrict (st : SysState) (filter : Doc) :
    ((∀ d ∈ st.store, matchesFilter filter d = false) →
      findOne st filter = none ∧
        findOneStrict st filter = Except.error (RepoError.documentNotFound filter)) ∧
    (∀ d, findOne st filter = some d → findOneStrict st filter = Except.ok d) := by
  constructor
  · intro h
    have hnone : findOne st filter = none := by
      unfold findOne
      rw [List.find?_eq_none]
      intro d hd
      simp [h d hd]
    refine ⟨hnone, ?_⟩
    unfold findOneStrict
    rw [hnone]
  · intro d hd
    unfold findOneStrict
    rw [hd]

/-- Witness for C5 at a concrete store of one document. -/
theorem claim_C5_findOneStrict_witness :
    (findOne ⟨[[("a", Val.vInt 1)]], 0⟩ [("a", Val.vInt 2)] = none ∧
      findOneStrict ⟨[[("a", Val.vInt 1)]], 0⟩ [("a", Val.vInt 2)] =
        Except.error (RepoError.documentNotFound [("a", Val.vInt 2)])) ∧
    findOneStrict ⟨[[("a", Val.vInt 1)]], 0⟩ [("a", Val.vInt 1)] =
      Except.ok [("a", Val.vInt 1)] :=
  ⟨(claim_C5_findOneStrict ⟨[[("a", Val.vInt 1)]], 0⟩ [("a", Val.vInt 2)]).1
      (by decide),
    (claim_C5_findOneStrict ⟨[[("a", Val.vInt 1)]], 0⟩ [("a", Val.vInt 1)]).2
      [("a", Val.vInt 1)] (by decide)⟩

/-- C4: a validation failure on any batch item makes `insertMany` reject
with a validation error before any storage call is issued — the storage
trace is empty and the state (store and generator) is unchanged — and
`insertOne` behaves the same way on an invalid input. -/
theorem claim_C4_validation_before_io (repo : Repo) (freshIds : Nat → Val)
    (nows : Nat → Nat) (inputs : List Doc) (st : SysState)
    (freshId : Val) (now : Nat) (input : Doc) :
    ((∃ j, ∃ hj : j < inputs.length,
        parseDoc repo.schema ([("_id", freshIds j)] ++ inputs.get ⟨j, hj⟩) = none) →
      insertMany repo freshIds nows inputs st =
        (Except.error RepoError.validation, st, [])) ∧
    (parseDoc repo.schema ([("_id", freshId)] ++ input) = none →
      insertOne repo freshId now input st =
        (Except.error RepoError.validation, st, [])) := by
  constructor
  · rintro ⟨j, hj, hfail⟩
    have h0 : parseDoc repo.schema ([("_id", freshIds (0 + j))] ++ inputs.get ⟨j, hj⟩)
        = none := by
      rw [Nat.zero_add]
      exact hfail
    have := parseAllFrom_eq_none_of_fail repo.schema freshIds inputs 0 j hj h0
    unfold insertMany
    rw [this]
  · intro hfail
    unfold insertOne
    rw [hfail]

/-- Witness for C4: a schema requiring a string field `name` rejects a
batch whose second item lacks it, and the single insert likewise. -/
theorem claim_C4_validation_before_io_witness :
    insertMany
        ⟨⟨[("name", fun v => match v with | Val.vStr _ => true | _ => false)]⟩, true⟩
        (fun i => Val.vId i) (fun _ => 0)
        [[("name", Val.vStr "a")], [("x", Val.vInt 1)]] ⟨[], 0⟩ =
      (Except.error RepoError.validation, ⟨[], 0⟩, []) ∧
    insertOne
        ⟨⟨[("name", fun v => match v with | Val.vStr _ => true | _ => false)]⟩, true⟩
        (Val.vId 0) 0 [("x", Val.vInt 1)] ⟨[], 0⟩ =
      (Except.error RepoError.validation, ⟨[], 0⟩, []) :=
  ⟨(claim_C4_validation_before_io
      ⟨⟨[("name", fun v => match v with | Val.vStr _ => true | _ => false)]⟩, true⟩
      (fun i => Val.vId i) (fun _ => 0)
      [[("name", Val.vStr "a")], [("x", Val.vInt 1)]] ⟨[], 0⟩
      (Val.vId 0) 0 [("x", Val.vInt 1)]).1 ⟨1, by decide, by decide⟩,
    (claim_C4_validation_before_io
      ⟨⟨[("name", fun v => match v with | Val.vStr _ => true | _ => false)]⟩, true⟩
      (fun i => Val.vId i) (fun _ => 0)
      [[("name", Val.vStr "a")], [("x", Val.vInt 1)]] ⟨[], 0⟩
      (Val.vId 0) 0 [("x", Val.vInt 1)]).2 (by decide)⟩

theorem getField_prepend_id (freshId : Val) (input : Doc) (k : String)
    (h : k ≠ "_id") :
    getField ([("_id", freshId)] ++ input) k = getField input k := by
  rw [getField_append, getField_pair]
  have hk : ("_id" == k) = false := by
    simp only [beq_eq_false_iff_ne, ne_eq]
    exact fun hcon => h hcon.symm
  cases getField input k <;> simp [hk, Option.or]

/-- C9: with timestamps disabled, no repository operation adds
`createdAt` or `updatedAt`: a document inserted by `insertOne` or
`insertMany` carries such a field only when a caller input did, and
`updateOne`, `updateMany` and `findOneAndUpdate` send the caller update
to storage completely unchanged. -/
theorem claim_C9_no_timestamp_fields (repo : Repo) (hts : repo.timestamps = false)
    (freshId : Val) (now : Nat) (input : Doc) (st : SysState)
    (freshIds : Nat → Val) (nows : Nat → Nat) (inputs : List Doc)
    (filter : Doc) (u : UpdateDoc) :
    (∀ doc st2 ops, insertOne repo freshId now input st = (Except.ok doc, st2, ops) →
      ∀ k, k = "createdAt" ∨ k = "updatedAt" →
        hasField doc k = true → hasField input k = true) ∧
    (∀ docs st2 ops,
      insertMany repo freshIds nows inputs st = (Except.ok docs, st2, ops) →
      ∀ d ∈ docs, ∀ k, k = "createdAt" ∨ k = "updatedAt" →
        hasField d k = true → ∃ inp ∈ inputs, hasField inp k = true) ∧
    (updateOne repo now filter u st).2 = [StorageOp.updateOneOp filter u] ∧
    (updateMany repo now filter u st).2 = [StorageOp.updateManyOp filter u] ∧
    (findOneAndUpdate repo now filter u st).2.2 =
      [StorageOp.findOneAndUpdateOp filter u] := by
  have hkid : ∀ k : String, k = "createdAt" ∨ k = "updatedAt" → k ≠ "_id" := by
    rintro k (rfl | rfl) <;> decide
  refine ⟨?_, ?_, ?_, ?_, ?_⟩
  · intro doc st2 ops h k hk hdoc
    unfold insertOne at h
    cases hp : parseDoc repo.schema ([("_id", freshId)] ++ input) with
    | none => rw [hp] at h; simp at h
    | some validated =>
        rw [hp, hts] at h
        simp at h
        obtain ⟨hdoc2, -, -⟩ := h
        subst hdoc2
        rcases Option.isSome_iff_exists.mp hdoc with ⟨v, hv⟩
        have := parseDoc_get_some repo.schema _ _ k v hp hv
        rw [getField_prepend_id _ _ _ (hkid k hk)] at this
        unfold hasField
        rw [this]
        rfl
  · intro docs st2 ops h d hd k hk hdoc
    unfold insertMany at h
    cases hp : parseAllFrom repo.schema freshIds 0 inputs with
    | none => rw [hp] at h; simp at h
    | some validated =>
        rw [hp, hts] at h
        simp at h
        obtain ⟨hdocs, -, -⟩ := h
        subst hdocs
        rcases Option.isSome_iff_exists.mp hdoc with ⟨v, hv⟩
        rcases parseAllFrom_mem repo.schema freshIds inputs 0 validated hp d hd
          with ⟨inp, hinp, j, hj⟩
        have := parseDoc_get_some repo.schema _ _ k v hj hv
        rw [getField_prepend_id _ _ _ (hkid k hk)] at this
        refine ⟨inp, hinp, ?_⟩
        unfold hasField
        rw [this]
        rfl
  · unfold updateOne
    rw [hts, normalizeUpdate_off]
  · unfold updateMany
    rw [hts, normalizeUpdate_off]
  · unfold findOneAndUpdate
    rw [hts, normalizeUpdate_off]
    cases findOne st filter <;> rfl

/-- Witness for C9 at a repository with timestamps disabled: the
inserted document has no `createdAt`, and an update is forwarded
untouched. -/
theorem claim_C9_no_timestamp_fields_witness :
    (∀ doc st2 ops,
      insertOne ⟨⟨[("_id", fun _ => true)]⟩, false⟩ (Val.vId 7) 0 [] ⟨[], 0⟩ =
          (Except.ok doc, st2, ops) →
      ∀ k, k = "createdAt" ∨ k = "updatedAt" →
        hasField doc k = true → hasField [] k = true) ∧
    (∀ docs st2 ops,
      insertMany ⟨⟨[("_id", fun _ => true)]⟩, false⟩ (fun i => Val.vId i)
          (fun _ => 0) [[]] ⟨[], 0⟩ = (Except.ok docs, st2, ops) →
      ∀ d ∈ docs, ∀ k, k = "createdAt" ∨ k = "updatedAt" →
        hasField d k = true → ∃ inp ∈ ([[]] : List Doc), hasField inp k = true) ∧
    (updateOne ⟨⟨[("_id", fun _ => true)]⟩, false⟩ 0 []
        [("$inc", [("n", Val.vInt 1)])] ⟨[], 0⟩).2 =
      [StorageOp.updateOneOp [] [("$inc", [("n", Val.vInt 1)])]] ∧
    (updateMany ⟨⟨[("_id", fun _ => true)]⟩, false⟩ 0 []
        [("$inc", [("n", Val.vInt 1)])] ⟨[], 0⟩).2 =
      [StorageOp.updateManyOp [] [("$inc", [("n", Val.vInt 1)])]] ∧
    (findOneAndUpdate ⟨⟨[("_id", fun _ => true)]⟩, false⟩ 0 []
        [("$inc", [("n", Val.vInt 1)])] ⟨[], 0⟩).2.2 =
      [StorageOp.findOneAndUpdateOp [] [("$inc", [("n", Val.vInt 1)])]] :=
  claim_C9_no_timestamp_fields ⟨⟨[("_id", fun _ => true)]⟩, false⟩ rfl
    (Val.vId 7) 0 [] ⟨[], 0⟩ (fun i => Val.vId i) (fun _ => 0) [[]]
    [] [("$inc", [("n", Val.vInt 1)])]

/-- C6: for a validated input, the document returned by `insertOne` is
the exact normalized document appended to storage (not re-read from it),
and a subsequent `findOne` on its identifier returns that same document,
provided the identifier does not collide with an already stored one (the
unique index on `_id`). -/
theorem claim_C6_insert_roundtrip (repo : Repo) (freshId : Val) (now : Nat)
    (input : Doc) (st : SysState) (doc : Doc) (st2 : SysState)
    (ops : List StorageOp) (idv : Val)
    (h : insertOne repo freshId now input st = (Except.ok doc, st2, ops))
    (hid : getField doc "_id" = some idv)
    (hunique : ∀ d ∈ st.store, matchesFilter [("_id", idv)] d = false) :
    st2.store = st.store ++ [doc] ∧ findOne st2 [("_id", idv)] = some doc := by
  unfold insertOne at h
  cases hp : parseDoc repo.schema ([("_id", freshId)] ++ input) with
  | none => rw [hp] at h; simp at h
  | some validated =>
      rw [hp] at h
      simp only [Prod.mk.injEq, Except.ok.injEq] at h
      obtain ⟨hdoc, hst2, _⟩ := h
      have hstore : st2.store = st.store ++ [doc] := by
        rw [← hst2, hdoc]
      refine ⟨hstore, ?_⟩
      unfold findOne
      rw [hstore, List.find?_append]
      have hnone : st.store.find? (matchesFilter [("_id", idv)]) = none := by
        rw [List.find?_eq_none]
        intro d hd
        simp [hunique d hd]
      rw [hnone]
      have hmatch : matchesFilter [("_id", idv)] doc = true := by
        unfold matchesFilter
        simp only [List.all_cons, List.all_nil, Bool.and_true]
        rw [hid]
        simp
      simp [List.find?, hmatch]

/-- Witness for C6: inserting into an empty store and reading the
document back by its identifier. -/
theorem claim_C6_insert_roundtrip_witness :
    (⟨[[("_id", Val.vId 7), ("createdAt", Val.vDate 1), ("updatedAt", Val.vDate 1)]],
        1⟩ : SysState).store =
      [] ++ [[("_id", Val.vId 7), ("createdAt", Val.vDate 1),
        ("updatedAt", Val.vDate 1)]] ∧
    findOne ⟨[[("_id", Val.vId 7), ("createdAt", Val.vDate 1),
        ("updatedAt", Val.vDate 1)]], 1⟩ [("_id", Val.vId 7)] =
      some [("_id", Val.vId 7), ("createdAt", Val.vDate 1),
        ("updatedAt", Val.vDate 1)] :=
  claim_C6_insert_roundtrip ⟨⟨[("_id", fun _ => true)]⟩, true⟩ (Val.vId 7) 0 []
    ⟨[], 0⟩
    [("_id", Val.vId 7), ("createdAt", Val.vDate 1), ("updatedAt", Val.vDate 1)]
    ⟨[[("_id", Val.vId 7), ("createdAt", Val.vDate 1), ("updatedAt", Val.vDate 1)]],
      1⟩
    [StorageOp.insertOneOp [("_id", Val.vId 7), ("createdAt", Val.vDate 1),
      ("updatedAt", Val.vDate 1)]]
    (Val.vId 7) (by decide) (by decide) (by decide)

theorem tsLe_mono (v : Option Val) (a b : Nat) (hab : a ≤ b)
    (h : tsLe v a = true) : tsLe v b = true := by
  unfold tsLe at h ⊢
  cases v with
  | none => rfl
  | some w =>
      cases w with
      | vDate ts =>
          simp only [decide_eq_true_eq] at h ⊢
          omega
      | vInt n => rfl
      | vStr s => rfl
      | vBool b => rfl
      | vId n => rfl

theorem stampAllFrom_snd_le (nows : Nat → Nat) (docs : List Doc)
    (i lastTimestamp : Nat) :
    lastTimestamp ≤ (stampAllFrom nows i lastTimestamp docs).2 := by
  induction docs generalizing i lastTimestamp with
  | nil => exact le_refl _
  | cons doc rest ih =>
      unfold stampAllFrom
      exact le_trans (le_of_lt (getNewTimestamp_lt lastTimestamp (nows i)))
        (ih (i + 1) _)

theorem stampAllFrom_mem_bound (nows : Nat → Nat) (docs : List Doc)
    (i lastTimestamp : Nat) :
    ∀ d ∈ (stampAllFrom nows i lastTimestamp docs).1,
      tsLe (getField d "updatedAt") (stampAllFrom nows i lastTimestamp docs).2
        = true := by
  induction docs generalizing i lastTimestamp with
  | nil => intro d hd; simp [stampAllFrom] at hd
  | cons doc rest ih =>
      intro d hd
      unfold stampAllFrom at hd ⊢
      rcases List.mem_cons.mp hd with hd1 | hd2
      · subst hd1
        rw [getField_addTimestamps_updatedAt]
        unfold tsLe
        simp only [decide_eq_true_eq]
        exact stampAllFrom_snd_le nows rest (i + 1) _
      · exact ih (i + 1) _ d hd2

theorem updateFirst_mem (store : List Doc) (filter : Doc) (u : UpdateDoc) :
    ∀ x ∈ updateFirst store filter u,
      x ∈ store ∨ ∃ d ∈ store, x = applyUpdate d u := by
  induction store with
  | nil => intro x hx; simp [updateFirst] at hx
  | cons d rest ih =>
      intro x hx
      unfold updateFirst at hx
      by_cases hm : matchesFilter filter d = true
      · rw [if_pos hm] at hx
        rcases List.mem_cons.mp hx with hx1 | hx2
        · exact Or.inr ⟨d, List.mem_cons_self _ _, hx1⟩
        · exact Or.inl (List.mem_cons_of_mem _ hx2)
      · rw [if_neg hm] at hx
        rcases List.mem_cons.mp hx with hx1 | hx2
        · exact Or.inl (by rw [hx1]; exact List.mem_cons_self _ _)
        · rcases ih x hx2 with h1 | ⟨d2, hd2, hxd⟩
          · exact Or.inl (List.mem_cons_of_mem _ h1)
          · exact Or.inr ⟨d2, List.mem_cons_of_mem _ hd2, hxd⟩

theorem normalized_apply_updatedAt (lastTimestamp now : Nat) (u : UpdateDoc)
    (d : Doc)
    (hupdated : ∀ p ∈ u, p.1 ≠ "$set" → hasField p.2 "updatedAt" = false) :
    getField (applyUpdate d (normalizeUpdate true lastTimestamp now u).1)
        "updatedAt" = some (Val.vDate (max now (lastTimestamp + 1))) := by
  cases hset : getOp u "$set" with
  | some c =>
      rw [normalizeUpdate_hasSet _ _ _ _ hset]
      apply getField_applyUpdate_of_set
      · intro p hp hps
        rcases List.mem_map.mp hp with ⟨q, hq, hf⟩
        by_cases hq1 : (q.1 == "$set") = true
        · rw [if_pos hq1] at hf
          rw [← hf]
          exact getField_append_of_some _ _ _ _ (getField_singleton _ _)
        · rw [if_neg (by simpa using hq1)] at hf
          rw [← hf] at hps
          exact absurd (beq_iff_eq.mpr hps) (by simpa using hq1)
      · refine ⟨("$set", c ++ [("updatedAt",
          Val.vDate (max now (lastTimestamp + 1)))]), ?_, rfl⟩
        exact List.mem_map.mpr ⟨("$set", c), getOp_some_mem u "$set" c hset,
          by simp⟩
      · intro p hp hps
        rcases List.mem_map.mp hp with ⟨q, hq, hf⟩
        by_cases hq1 : (q.1 == "$set") = true
        · rw [if_pos hq1] at hf
          rw [← hf] at hps
          exact absurd (show (q.1, c ++ [("updatedAt",
            Val.vDate (max now (lastTimestamp + 1)))]).1 = "$set" by
              simpa using hq1) hps
        · rw [if_neg (by simpa using hq1)] at hf
          rw [← hf]
          exact hupdated q hq (by simpa using hq1)
  | none =>
      rw [normalizeUpdate_noSet _ _ _ hset]
      show getField (applyOp d "$set" _) "updatedAt" = _
      unfold applyOp applySet
      simp only [beq_self_eq_true, if_pos]
      exact getField_append_of_some _ _ _ _ (getField_singleton _ _)

theorem normalized_apply_createdAt (lastTimestamp now : Nat) (u : UpdateDoc)
    (d : Doc)
    (hcreated : ∀ p ∈ u, hasField p.2 "createdAt" = false) :
    getField (applyUpdate d (normalizeUpdate true lastTimestamp now u).1)
        "createdAt" = getField d "createdAt" := by
  cases hset : getOp u "$set" with
  | some c =>
      rw [normalizeUpdate_hasSet _ _ _ _ hset]
      apply getField_applyUpdate_of_no_touch
      intro p hp
      rcases List.mem_map.mp hp with ⟨q, hq, hf⟩
      by_cases hq1 : (q.1 == "$set") = true
      · rw [if_pos hq1] at hf
        rw [← hf]
        show hasField (c ++ [("updatedAt", _)]) "createdAt" = false
        rw [hasField_false_iff, getField_append,
          (hasField_false_iff _ _).mp
            (hcreated ("$set", c) (getOp_some_mem u "$set" c hset))]
        rw [getField_pair]
        simp
      · rw [if_neg (by simpa using hq1)] at hf
        rw [← hf]
        exact hcreated q hq
  | none =>
      rw [normalizeUpdate_noSet _ _ _ hset]
      show getField (applyOp d "$set" _) "createdAt" = _
      unfold applyOp applySet
      simp only [beq_self_eq_true, if_pos]
      apply getField_append_of_none
      rw [getField_pair]
      simp

theorem normalizeUpdate_snd (lastTimestamp now : Nat) (u : UpdateDoc) :
    (normalizeUpdate true lastTimestamp now u).2 = max now (lastTimestamp + 1) := by
  cases hset : getOp u "$set" with
  | some c => rw [normalizeUpdate_hasSet _ _ _ _ hset]
  | none => rw [normalizeUpdate_noSet _ _ _ hset]

/-- C2: with timestamps enabled, a document created by `insertOne` or
`insertMany` has `createdAt` equal to `updatedAt`; the creation instant
strictly exceeds the generator state, so repeated inserts and updates
strictly increase even with a frozen wall clock (the clock argument `now`
is arbitrary, including one at or before the previous instant); every
update applied by `updateOne`, `updateMany` or `findOneAndUpdate` to a
stored document whose `updatedAt` was issued by the generator strictly
increases `updatedAt` and preserves `createdAt` (for caller updates that
do not themselves write `createdAt`, nor `updatedAt` outside `$set`); and
every operation preserves the generator invariant that stored `updatedAt`
instants are bounded by the remembered `lastTimestamp`. -/
theorem claim_C2_timestamp_invariant (repo : Repo) (hts : repo.timestamps = true)
    (freshId : Val) (now : Nat) (input : Doc) (st : SysState)
    (freshIds : Nat → Val) (nows : Nat → Nat) (inputs : List Doc)
    (filter : Doc) (u : UpdateDoc)
    (hcreated : ∀ p ∈ u, hasField p.2 "createdAt" = false)
    (hupdated : ∀ p ∈ u, p.1 ≠ "$set" → hasField p.2 "updatedAt" = false) :
    (∀ doc st2 ops, insertOne repo freshId now input st = (Except.ok doc, st2, ops) →
      ∃ t, getField doc "createdAt" = some (Val.vDate t) ∧
        getField doc "updatedAt" = some (Val.vDate t) ∧
        st.lastTimestamp < t ∧ st2.lastTimestamp = t) ∧
    (∀ docs st2 ops,
      insertMany repo freshIds nows inputs st = (Except.ok docs, st2, ops) →
      ∀ d ∈ docs, ∃ t, getField d "createdAt" = some (Val.vDate t) ∧
        getField d "updatedAt" = some (Val.vDate t)) ∧
    (∀ d ts, getField d "updatedAt" = some (Val.vDate ts) →
      ts ≤ st.lastTimestamp →
      ∃ t, ts < t ∧
        getField (applyUpdate d (normalizeUpdate true st.lastTimestamp now u).1)
          "updatedAt" = some (Val.vDate t) ∧
        getField (applyUpdate d (normalizeUpdate true st.lastTimestamp now u).1)
          "createdAt" = getField d "createdAt") ∧
    ((updateOne repo now filter u st).1.store =
      updateFirst st.store filter (normalizeUpdate true st.lastTimestamp now u).1) ∧
    ((updateMany repo now filter u st).1.store =
      updateAll st.store filter (normalizeUpdate true st.lastTimestamp now u).1) ∧
    (∀ d, findOne st filter = some d →
      (findOneAndUpdate repo now filter u st).1 =
        Except.ok (applyUpdate d (normalizeUpdate true st.lastTimestamp now u).1)) ∧
    (tsInvariant st →
      (∀ res st2 ops, insertOne repo freshId now input st = (res, st2, ops) →
        tsInvariant st2) ∧
      (∀ res st2 ops, insertMany repo freshIds nows inputs st = (res, st2, ops) →
        tsInvariant st2) ∧
      tsInvariant (updateOne repo now filter u st).1 ∧
      tsInvariant (updateMany repo now filter u st).1 ∧
      tsInvariant (findOneAndUpdate repo now filter u st).2.1) := by
  have hlt : st.lastTimestamp < max now (st.lastTimestamp + 1) :=
    lt_of_lt_of_le (Nat.lt_succ_self _) (le_max_right _ _)
  refine ⟨?_, ?_, ?_, ?_, ?_, ?_, ?_⟩
  · intro doc st2 ops h
    unfold insertOne at h
    cases hp : parseDoc repo.schema ([("_id", freshId)] ++ input) with
    | none => rw [hp] at h; simp at h
    | some validated =>
        rw [hp, hts] at h
        simp at h
        obtain ⟨hdoc, hst2, -⟩ := h
        refine ⟨max now (st.lastTimestamp + 1), ?_, ?_, hlt, ?_⟩
        · rw [← hdoc]; exact getField_addTimestamps_createdAt _ _ _
        · rw [← hdoc]; exact getField_addTimestamps_updatedAt _ _ _
        · rw [← hst2]; rfl
  · intro docs st2 ops h d hd
    unfold insertMany at h
    cases hp : parseAllFrom repo.schema freshIds 0 inputs with
    | none => rw [hp] at h; simp at h
    | some validated =>
        rw [hp, hts] at h
        simp at h
        obtain ⟨hdocs, -, -⟩ := h
        rw [← hdocs] at hd
        exact stampAllFrom_equalPair nows validated 0 st.lastTimestamp d hd
  · intro d ts hts2 hle
    refine ⟨max now (st.lastTimestamp + 1), lt_of_le_of_lt hle hlt, ?_, ?_⟩
    · exact normalized_apply_updatedAt _ _ _ _ hupdated
    · exact normalized_apply_createdAt _ _ _ _ hcreated
  · show (⟨updateFirst st.store filter
        (normalizeUpdate repo.timestamps st.lastTimestamp now u).1,
        (normalizeUpdate repo.timestamps st.lastTimestamp now u).2⟩ :
      SysState).store = _
    rw [hts]
  · show (⟨updateAll st.store filter
        (normalizeUpdate repo.timestamps st.lastTimestamp now u).1,
        (normalizeUpdate repo.timestamps st.lastTimestamp now u).2⟩ :
      SysState).store = _
    rw [hts]
  · intro d hd
    unfold findOneAndUpdate
    rw [hts, hd]
  · intro hinv
    refine ⟨?_, ?_, ?_, ?_, ?_⟩
    · intro res st2 ops h
      unfold insertOne at h
      cases hp : parseDoc repo.schema ([("_id", freshId)] ++ input) with
      | none =>
          rw [hp] at h
          simp at h
          obtain ⟨-, hst2, -⟩ := h
          rw [← hst2]
          exact hinv
      | some validated =>
          rw [hp, hts] at h
          simp at h
          obtain ⟨-, hst2, -⟩ := h
          rw [← hst2]
          intro d hd
          rcases List.mem_append.mp hd with hd1 | hd2
          · exact tsLe_mono _ _ _ (le_of_lt hlt) (hinv d hd1)
          · rcases List.mem_singleton.mp hd2 with rfl
            rw [getField_addTimestamps_updatedAt]
            simp only [tsLe, decide_eq_true_eq]
            exact le_refl _
    · intro res st2 ops h
      unfold insertMany at h
      cases hp : parseAllFrom repo.schema freshIds 0 inputs with
      | none =>
          rw [hp] at h
          simp at h
          obtain ⟨-, hst2, -⟩ := h
          rw [← hst2]
          exact hinv
      | some validated =>
          rw [hp, hts] at h
          simp at h
          obtain ⟨-, hst2, -⟩ := h
          rw [← hst2]
          intro d hd
          rcases List.mem_append.mp hd with hd1 | hd2
          · exact tsLe_mono _ _ _ (stampAllFrom_snd_le nows validated 0 _)
              (hinv d hd1)
          · exact stampAllFrom_mem_bound nows validated 0 _ d hd2
    · show tsInvariant ⟨updateFirst st.store filter
          (normalizeUpdate repo.timestamps st.lastTimestamp now u).1,
          (normalizeUpdate repo.timestamps st.lastTimestamp now u).2⟩
      rw [hts]
      intro d hd
      simp only [normalizeUpdate_snd]
      rcases updateFirst_mem st.store filter _ d hd with hd1 | ⟨d2, hd2, rfl⟩
      · exact tsLe_mono _ _ _ (le_of_lt hlt) (hinv d hd1)
      · rw [normalized_apply_updatedAt _ _ _ _ hupdated]
        simp [tsLe]
    · show tsInvariant ⟨updateAll st.store filter
          (normalizeUpdate repo.timestamps st.lastTimestamp now u).1,
          (normalizeUpdate repo.timestamps st.lastTimestamp now u).2⟩
      rw [hts]
      intro d hd
      simp only [normalizeUpdate_snd]
      rcases List.mem_map.mp hd with ⟨d2, hd2, hmap⟩
      by_cases hm : matchesFilter filter d2 = true
      · rw [if_pos hm] at hmap
        rw [← hmap, normalized_apply_updatedAt _ _ _ _ hupdated]
        simp [tsLe]
      · rw [if_neg hm] at hmap
        rw [← hmap]
        exact tsLe_mono _ _ _ (le_of_lt hlt) (hinv d2 hd2)
    · unfold findOneAndUpdate
      rw [hts]
      cases hfo : findOne st filter with
      | some d0 =>
          intro d hd
          simp only [normalizeUpdate_snd]
          rcases updateFirst_mem st.store filter _ d hd with hd1 | ⟨d2, hd2, rfl⟩
          · exact tsLe_mono _ _ _ (le_of_lt hlt) (hinv d hd1)
          · rw [normalized_apply_updatedAt _ _ _ _ hupdated]
            simp [tsLe]
      | none =>
          intro d hd
          simp only [normalizeUpdate_snd]
          exact tsLe_mono _ _ _ (le_of_lt hlt) (hinv d hd)

/-- Witness for C2 at concrete inputs with a frozen wall clock (`now`
fixed at `0`). -/
theorem claim_C2_timestamp_invariant_witness :
    (∀ doc st2 ops,
      insertOne ⟨⟨[("_id", fun _ => true)]⟩, true⟩ (Val.vId 1) 0 [] ⟨[], 0⟩ =
          (Except.ok doc, st2, ops) →
      ∃ t, getField doc "createdAt" = some (Val.vDate t) ∧
        getField doc "updatedAt" = some (Val.vDate t) ∧
        (0 : Nat) < t ∧ st2.lastTimestamp = t) ∧
    (∀ docs st2 ops,
      insertMany ⟨⟨[("_id", fun _ => true)]⟩, true⟩ (fun i => Val.vId i)
          (fun _ => 0) [[]] ⟨[], 0⟩ = (Except.ok docs, st2, ops) →
      ∀ d ∈ docs, ∃ t, getField d "createdAt" = some (Val.vDate t) ∧
        getField d "updatedAt" = some (Val.vDate t)) ∧
    (∀ d ts, getField d "updatedAt" = some (Val.vDate ts) →
      ts ≤ (0 : Nat) →
      ∃ t, ts < t ∧
        getField (applyUpdate d
          (normalizeUpdate true 0 0 [("$set", [("a", Val.vInt 1)])]).1)
          "updatedAt" = some (Val.vDate t) ∧
        getField (applyUpdate d
          (normalizeUpdate true 0 0 [("$set", [("a", Val.vInt 1)])]).1)
          "createdAt" = getField d "createdAt") ∧
    ((updateOne ⟨⟨[("_id", fun _ => true)]⟩, true⟩ 0 []
        [("$set", [("a", Val.vInt 1)])] ⟨[], 0⟩).1.store =
      updateFirst [] []
        (normalizeUpdate true 0 0 [("$set", [("a", Val.vInt 1)])]).1) ∧
    ((updateMany ⟨⟨[("_id", fun _ => true)]⟩, true⟩ 0 []
        [("$set", [("a", Val.vInt 1)])] ⟨[], 0⟩).1.store =
      updateAll [] []
        (normalizeUpdate true 0 0 [("$set", [("a", Val.vInt 1)])]).1) ∧
    (∀ d, findOne ⟨[], 0⟩ [] = some d →
      (findOneAndUpdate ⟨⟨[("_id", fun _ => true)]⟩, true⟩ 0 []
          [("$set", [("a", Val.vInt 1)])] ⟨[], 0⟩).1 =
        Except.ok (applyUpdate d
          (normalizeUpdate true 0 0 [("$set", [("a", Val.vInt 1)])]).1)) ∧
    (tsInvariant ⟨[], 0⟩ →
      (∀ res st2 ops,
        insertOne ⟨⟨[("_id", fun _ => true)]⟩, true⟩ (Val.vId 1) 0 [] ⟨[], 0⟩ =
            (res, st2, ops) → tsInvariant st2) ∧
      (∀ res st2 ops,
        insertMany ⟨⟨[("_id", fun _ => true)]⟩, true⟩ (fun i => Val.vId i)
            (fun _ => 0) [[]] ⟨[], 0⟩ = (res, st2, ops) → tsInvariant st2) ∧
      tsInvariant (updateOne ⟨⟨[("_id", fun _ => true)]⟩, true⟩ 0 []
        [("$set", [("a", Val.vInt 1)])] ⟨[], 0⟩).1 ∧
      tsInvariant (updateMany ⟨⟨[("_id", fun _ => true)]⟩, true⟩ 0 []
        [("$set", [("a", Val.vInt 1)])] ⟨[], 0⟩).1 ∧
      tsInvariant (findOneAndUpdate ⟨⟨[("_id", fun _ => true)]⟩, true⟩ 0 []
        [("$set", [("a", Val.vInt 1)])] ⟨[], 0⟩).2.1) :=
  claim_C2_timestamp_invariant ⟨⟨[("_id", fun _ => true)]⟩, true⟩ rfl
    (Val.vId 1) 0 [] ⟨[], 0⟩ (fun i => Val.vId i) (fun _ => 0) [[]]
    [] [("$set", [("a", Val.vInt 1)])] (by decide) (by decide)

/-- The state invariant `isConnected → db present` holds initially and is
preserved by every transition of the connection manager, so the `ensureDb`
branch that would reject immediately is unreachable. -/
theorem connected_implies_db_preserved :
    (initialConnState.isConnected = true → initialConnState.db.isSome) ∧
    (∀ s : ConnState, (s.isConnected = true → s.db.isSome) →
      ∀ mr rd, ((setup s mr rd).1.isConnected = true → (setup s mr rd).1.db.isSome) ∧
      (∀ c db, ((establishSuccess s c db).1.isConnected = true →
        (establishSuccess s c db).1.db.isSome)) ∧
      ((transportClose s).1.isConnected = true → (transportClose s).1.db.isSome) ∧
      ((disconnect s).1.isConnected = true → (disconnect s).1.db.isSome)) := by
  constructor
  · intro h
    simp [initialConnState] at h
  · intro s hs mr rd
    refine ⟨?_, ?_, ?_, ?_⟩
    · unfold setup
      by_cases hc : s.connectionPromise = true
      · simpa [hc] using hs
      · simpa [hc] using hs
    · intro c db
      simp [establishSuccess]
    · intro h
      simp [transportClose] at h
    · unfold disconnect
      cases s.client with
      | none => simpa using hs
      | some c => simp

/-- C7: `ensureDb` returns the session handle immediately whenever one
exists, even with `isConnected` false; otherwise (under the reachable
state invariant) it resolves with the handle carried by a `connected`
event firing strictly before the `maxRetries * retryDelay` timeout, and
rejects with the not-connected error exactly at the timeout when no
such event fires earlier; the wait is a single suspension on the
`connected` listener racing the timer. -/
theorem claim_C7_ensureReady (s : ConnState) (sig : Option (Nat × Nat))
    (hinv : s.isConnected = true → s.db.isSome) :
    (∀ db, s.db = some db → ensureDb s sig = EnsureOutcome.immediate db) ∧
    (s.db = none →
      (∀ t db, sig = some (t, db) → t < timeoutBound s →
        ensureDb s sig = EnsureOutcome.resolvedAt t db) ∧
      (sig = none →
        ensureDb s sig = EnsureOutcome.notConnectedAt (timeoutBound s)) ∧
      (∀ t db, sig = some (t, db) → timeoutBound s ≤ t →
        ensureDb s sig = EnsureOutcome.notConnectedAt (timeoutBound s))) := by
  constructor
  · intro db hdb
    unfold ensureDb
    rw [hdb]
  · intro hdb
    have hconn : s.isConnected = false := by
      cases hc : s.isConnected with
      | false => rfl
      | true =>
          have := hinv hc
          rw [hdb] at this
          simp at this
    refine ⟨?_, ?_, ?_⟩
    · intro t db hsig htlt
      unfold ensureDb
      rw [hdb, hconn, hsig]
      simp [htlt]
    · intro hsig
      unfold ensureDb
      rw [hdb, hconn, hsig]
      rfl
    · intro t db hsig htle
      unfold ensureDb
      rw [hdb, hconn, hsig]
      simp [Nat.not_lt.mpr htle]

/-- Witness for C7: a handle is returned immediately even when
disconnected; with no handle, a `connected` event at `t = 3` beats the
`5 * 1000` timeout; no event rejects at the timeout. -/
theorem claim_C7_ensureReady_witness :
    ensureDb ⟨some 9, some 1, false, true, 5, 1000⟩ none =
      EnsureOutcome.immediate 9 ∧
    ensureDb ⟨none, none, false, true, 5, 1000⟩ (some (3, 4)) =
      EnsureOutcome.resolvedAt 3 4 ∧
    ensureDb ⟨none, none, false, true, 5, 1000⟩ none =
      EnsureOutcome.notConnectedAt 5000 :=
  ⟨(claim_C7_ensureReady ⟨some 9, some 1, false, true, 5, 1000⟩ none
        (by decide)).1 9 rfl,
    ((claim_C7_ensureReady ⟨none, none, false, true, 5, 1000⟩ (some (3, 4))
        (by decide)).2 rfl).1 3 4 rfl (by decide),
    ((claim_C7_ensureReady ⟨none, none, false, true, 5, 1000⟩ none
        (by decide)).2 rfl).2.1 rfl⟩

/-- C8 as frozen is refuted at this state: with a setup attempt in flight
but no client recorded yet, `disconnect()` does not clear the in-flight
setup marker, does not reset anything, and emits no `disconnected`
event. -/
theorem claim_C8_counterexample :
    disconnect ⟨none, none, false, true, 5, 1000⟩ =
      (⟨none, none, false, true, 5, 1000⟩, false, []) := by
  decide

/-- C8 amended: `teardown` performs its effects only when a transport
client is recorded: it then closes the transport, resets all connection
fields, clears the in-flight setup marker and emits `disconnected`; with
no recorded client it leaves the state untouched (the setup marker
survives) and emits nothing. -/
theorem claim_C8_teardown (s : ConnState) :
    (∀ c, s.client = some c →
      disconnect s =
        (⟨none, none, false, false, s.maxRetries, s.retryDelay⟩, true,
          [ConnEvent.disconnected])) ∧
    (s.client = none → disconnect s = (s, false, [])) := by
  constructor
  · intro c hc
    unfold disconnect
    rw [hc]
  · intro hc
    unfold disconnect
    rw [hc]

/-- Witness for C8 amended, at a connected state and at a
never-connected state. -/
theorem claim_C8_teardown_witness :
    disconnect ⟨some 2, some 3, true, true, 5, 1000⟩ =
      (⟨none, none, false, false, 5, 1000⟩, true, [ConnEvent.disconnected]) ∧
    disconnect ⟨none, none, false, true, 2, 7⟩ =
      (⟨none, none, false, true, 2, 7⟩, false, []) :=
  ⟨(claim_C8_teardown ⟨some 2, some 3, true, true, 5, 1000⟩).1 3 rfl,
    (claim_C8_teardown ⟨none, none, false, true, 2, 7⟩).2 rfl⟩

/-- C10: a `setup` call that coalesces onto an in-flight or completed
attempt still overwrites `maxRetries` and `retryDelay` first (keeping a
value its options omit), leaves the connection fields and the existing
attempt untouched, and the timeout bound used by a later `ensureDb`
wait is computed from this most recent configuration. -/
theorem claim_C10_setup_config (s : ConnState)
    (optMaxRetries optRetryDelay : Option Nat)
    (h : s.connectionPromise = true) :
    (setup s optMaxRetries optRetryDelay).1.maxRetries =
      optMaxRetries.getD s.maxRetries ∧
    (setup s optMaxRetries optRetryDelay).1.retryDelay =
      optRetryDelay.getD s.retryDelay ∧
    (setup s optMaxRetries optRetryDelay).2 = true ∧
    (setup s optMaxRetries optRetryDelay).1.connectionPromise = true ∧
    (setup s optMaxRetries optRetryDelay).1.db = s.db ∧
    (setup s optMaxRetries optRetryDelay).1.client = s.client ∧
    (setup s optMaxRetries optRetryDelay).1.isConnected = s.isConnected ∧
    timeoutBound (setup s optMaxRetries optRetryDelay).1 =
      (optMaxRetries.getD s.maxRetries) * (optRetryDelay.getD s.retryDelay) ∧
    (s.db = none → s.isConnected = false →
      ensureDb (setup s optMaxRetries optRetryDelay).1 none =
        EnsureOutcome.notConnectedAt
          ((optMaxRetries.getD s.maxRetries) * (optRetryDelay.getD s.retryDelay))) := by
  obtain ⟨db, client, conn, cp, mr, rd⟩ := s
  have h2 : cp = true := h
  subst h2
  refine ⟨rfl, rfl, rfl, rfl, rfl, rfl, rfl, rfl, ?_⟩
  intro hdb hconn
  have hdb2 : db = none := hdb
  have hconn2 : conn = false := hconn
  subst hdb2
  subst hconn2
  rfl

/-- Witness for C10: the second setup call (coalescing, `maxRetries = 2`,
`retryDelay` omitted) re-times a later `ensureDb` wait to `2 * 1000`. -/
theorem claim_C10_setup_config_witness :
    (setup ⟨none, none, false, true, 5, 1000⟩ (some 2) none).1.maxRetries = 2 ∧
    (setup ⟨none, none, false, true, 5, 1000⟩ (some 2) none).1.retryDelay = 1000 ∧
    (setup ⟨none, none, false, true, 5, 1000⟩ (some 2) none).2 = true ∧
    (setup ⟨none, none, false, true, 5, 1000⟩ (some 2) none).1.connectionPromise
      = true ∧
    (setup ⟨none, none, false, true, 5, 1000⟩ (some 2) none).1.db = none ∧
    (setup ⟨none, none, false, true, 5, 1000⟩ (some 2) none).1.client = none ∧
    (setup ⟨none, none, false, true, 5, 1000⟩ (some 2) none).1.isConnected
      = false ∧
    timeoutBound (setup ⟨none, none, false, true, 5, 1000⟩ (some 2) none).1 =
      2 * 1000 ∧
    ((none : Option Nat) = none → false = false →
      ensureDb (setup ⟨none, none, false, true, 5, 1000⟩ (some 2) none).1 none =
        EnsureOutcome.notConnectedAt (2 * 1000)) :=
  claim_C10_setup_config ⟨none, none, false, true, 5, 1000⟩ (some 2) none rfl

end ZodMongo
